import Mathlib

/-!
Shallow embedding of the `capsulecorplab/peps` repository (files
`sep2html.py` and `sep2rss.py`) and proofs about it.

Text is modelled as `List Char`; a file is a `List (List Char)` of lines
(each line keeps its trailing newline, as produced by `splitlines(1)`).
Python exceptions are modelled with `Except` / explicit error fields.
-/

set_option maxRecDepth 40000

namespace Peps

/-- ASCII whitespace, as recognised by Python's `str.strip`, `str.split()`
and the regex class `\s` on the ASCII inputs this program processes. -/
def pyWs (c : Char) : Bool :=
  c = ' ' || c = '\t' || c = '\n' || c = '\r' || c = '\x0b' || c = '\x0c'

/-- Python `str.strip()` (ASCII whitespace). -/
def pyStrip (s : List Char) : List Char :=
  ((s.dropWhile pyWs).reverse.dropWhile pyWs).reverse

/-- Python `str.lower()` on the ASCII strings used here. -/
def pyLower (s : List Char) : List Char :=
  s.map Char.toLower

/-- `html.escape(s, quote=True)`, applied character by character (the
sequential `str.replace` calls of `html.escape` never rewrite text they
already produced, so the per-character map is equivalent). -/
def escapeChar (c : Char) : List Char :=
  if c = '&' then "&amp;".data
  else if c = '<' then "&lt;".data
  else if c = '>' then "&gt;".data
  else if c = '"' then "&quot;".data
  else if c = '\'' then "&#x27;".data
  else [c]

/-- `html.escape` over a whole string. -/
def escape (s : List Char) : List Char :=
  s.flatMap escapeChar

/-- Decimal digits of a natural number (no sign, no padding), i.e.
Python `"%d" % n` for `n ≥ 0`. -/
def decRepr (n : Nat) : List Char :=
  (Nat.toDigits 10 n)

/-- Python `"%0<w>d" % n` for an integer: zero-padded to width `w`,
a leading minus sign counting toward the width. -/
def padInt (w : Nat) (n : Int) : List Char :=
  if n < 0 then
    '-' :: (List.replicate (w - 1 - (decRepr n.natAbs).length) '0' ++ decRepr n.natAbs)
  else
    List.replicate (w - (decRepr n.natAbs).length) '0' ++ decRepr n.natAbs

/-- Numeric value of a digit string. -/
def natOfDigits (s : List Char) : Nat :=
  s.foldl (fun a c => a * 10 + (c.toNat - '0'.toNat)) 0

/-- No two consecutive underscores (Python digit-grouping rule). -/
def noDoubleUnderscore : List Char → Bool
  | [] => true
  | [_] => true
  | c :: d :: r => !(c = '_' && d = '_') && noDoubleUnderscore (d :: r)

/-- The digit-run shape accepted by Python `int()` after sign removal:
nonempty, starts and ends with a digit, only digits and underscores, and
no two consecutive underscores. -/
def pyIntOk (u : List Char) : Bool :=
  !u.isEmpty &&
  u.head?.all Char.isDigit &&
  u.getLast?.all Char.isDigit &&
  u.all (fun c => c.isDigit || c = '_') &&
  noDoubleUnderscore u

/-- Python `int(str)` after whitespace stripping: optional sign, then a
digit run with optional underscore grouping. -/
def pyIntCore (t : List Char) : Option Int :=
  if t.head? = some '-' then
    if pyIntOk (t.drop 1) then
      some (-(natOfDigits ((t.drop 1).filter Char.isDigit) : Int))
    else none
  else if t.head? = some '+' then
    if pyIntOk (t.drop 1) then
      some ((natOfDigits ((t.drop 1).filter Char.isDigit) : Int))
    else none
  else if pyIntOk t then some ((natOfDigits (t.filter Char.isDigit) : Int))
  else none

/-- Python `int(str)`: surrounding whitespace stripped, optional sign,
then a nonempty run of decimal digits in which single underscores may
appear between digits.  Returns `none` where Python raises `ValueError`. -/
def pythonInt (s : List Char) : Option Int :=
  pyIntCore (pyStrip s)

/-- `str.split()` — split on whitespace runs, dropping empty pieces. -/
def pySplit (s : List Char) : List (List Char) :=
  (List.splitOnP pyWs s).filter (fun p => p ≠ [])

/-- Worker for `re.split(",\\s*", v)`: a split point is a comma together
with the maximal whitespace run following it.  The `Bool` is true while
consuming that whitespace run. -/
def splitCommaSpaceGo : Bool → List Char → List Char → List (List Char)
  | _, [], acc => [acc.reverse]
  | skip, c :: cs, acc =>
    if skip && pyWs c then splitCommaSpaceGo true cs acc
    else if c = ',' then acc.reverse :: splitCommaSpaceGo true cs []
    else splitCommaSpaceGo false cs (c :: acc)

/-- `re.split(",\\s*", v)` (source line 233). -/
def splitCommaSpace (v : List Char) : List (List Char) :=
  splitCommaSpaceGo false v []

/-- Worker for `re.split(",?\\s+", v)`: a split point is an optional comma
followed by a nonempty (maximal) whitespace run; a comma not followed by
whitespace is ordinary text. -/
def splitCommaWsGo : Bool → List Char → List Char → List (List Char)
  | _, [], acc => [acc.reverse]
  | skip, c :: cs, acc =>
    if pyWs c then
      if skip then splitCommaWsGo true cs acc
      else acc.reverse :: splitCommaWsGo true cs []
    else if c = ',' && cs.head?.any pyWs then acc.reverse :: splitCommaWsGo true cs []
    else splitCommaWsGo false cs (c :: acc)

/-- `re.split(",?\\s+", v)` (source lines 248 and 431). -/
def splitCommaWs (v : List Char) : List (List Char) :=
  splitCommaWsGo false v []

/-! ## Email masking (`sep2html.py` lines 138–160) -/

/-- The fixed allow-list `NON_MASKED_EMAILS`. -/
def NON_MASKED_EMAILS : List (List Char) :=
  ["seps@python.org".data, "python-list@python.org".data, "python-dev@python.org".data]

/-- `address.split("@", 1)[0]` — the part before the first `@`. -/
def emailLocal (address : List Char) : List Char :=
  address.takeWhile (fun c => c ≠ '@')

/-- `address.split("@", 1)[1]` — the part after the first `@` (callers
always pass an address containing `@`). -/
def emailDomain (address : List Char) : List Char :=
  (address.dropWhile (fun c => c ≠ '@')).drop 1

/-- `linkemail(address, sepno)`: clickable, obfuscated `mailto:` link whose
subject line carries the proposal number. -/
def linkemail (address sepno : List Char) : List Char :=
  "<a href=\"mailto:".data ++ emailLocal address ++ "&#64;".data ++ emailDomain address
    ++ "?subject=SEP%20".data ++ sepno ++ "\">".data
    ++ emailLocal address ++ "&#32;&#97;t&#32;".data ++ emailDomain address ++ "</a>".data

/-- The masked (non-clickable) rendering of an address,
`"%s&#32;&#97;t&#32;%s" % parts`. -/
def maskedEmail (address : List Char) : List Char :=
  emailLocal address ++ "&#32;&#97;t&#32;".data ++ emailDomain address

/-- `fixemail(address, sepno)`: allow-listed addresses become clickable
links, every other address is masked. -/
def fixemail (address sepno : List Char) : List Char :=
  if pyLower address ∈ NON_MASKED_EMAILS then linkemail address sepno
  else maskedEmail address

/-- Models `email.utils.parseaddr` for the two shapes occurring in these
documents: a bare address (`realname` empty) and `Real Name <address>`;
surrounding whitespace is dropped as `parseaddr` does. -/
def parseaddrS (part : List Char) : List Char × List Char :=
  if '<' ∈ part then
    (pyStrip (part.takeWhile (fun c => c ≠ '<')),
     ((part.dropWhile (fun c => c ≠ '<')).drop 1).takeWhile (fun c => c ≠ '>'))
  else ([], pyStrip part)

/-- Uncaught Python exceptions of `sep2html.py` that our model tracks. -/
inductive PyErr where
  | valueError : PyErr
  | indexError : PyErr
deriving DecidableEq, Repr

/-- Decidable equality for `Except`, needed to evaluate models of
fallible code on concrete inputs. -/
instance instDecEqExcept {ε α : Type} [DecidableEq ε] [DecidableEq α] :
    DecidableEq (Except ε α) := fun a b =>
  match a, b with
  | .ok x, .ok y =>
    if h : x = y then isTrue (by rw [h]) else isFalse (fun he => h (Except.ok.inj he))
  | .error x, .error y =>
    if h : x = y then isTrue (by rw [h]) else isFalse (fun he => h (Except.error.inj he))
  | .ok _, .error _ => isFalse (fun he => Except.noConfusion he)
  | .error _, .ok _ => isFalse (fun he => Except.noConfusion he)

/-! ## Header fields `author` / `bdfl-delegate` / `discussions-to`
(`sep2html.py` lines 231–245) -/

/-- One entry of an author-like field (`k.lower()` is passed in):
entries with `@` go through `parseaddr` and then `linkemail` for
`discussions-to` or `fixemail` otherwise; entries starting `http:`
become plain links; anything else passes through verbatim. -/
def renderMailPart (kLower sep part : List Char) : List Char :=
  if '@' ∈ part then
    let p := parseaddrS part
    let m := if kLower = "discussions-to".data then linkemail p.2 sep else fixemail p.2 sep
    p.1 ++ " &lt;".data ++ m ++ "&gt;".data
  else if List.isPrefixOf "http:".data part then
    "<a href=\"".data ++ part ++ "\">".data ++ part ++ "</a>".data
  else part

/-- The whole author-like field value: split on `",\\s*"`, transform each
entry, rejoin with `", "`. -/
def renderAuthorField (kLower sep v : List Char) : List Char :=
  List.intercalate ", ".data ((splitCommaSpace v).map (renderMailPart kLower sep))

/-- Claim C1 formalised from the spec words: for **all three** field names
the entry is masked unless the address is allow-listed (in which case it
is a clickable `mailto:` link) — no special case for `discussions-to`. -/
def renderMailPartClaimC1 (sep part : List Char) : List Char :=
  if '@' ∈ part then
    let p := parseaddrS part
    p.1 ++ " &lt;".data ++ fixemail p.2 sep ++ "&gt;".data
  else if List.isPrefixOf "http:".data part then
    "<a href=\"".data ++ part ++ "\">".data ++ part ++ "</a>".data
  else part

/-- Field value under the claim-C1 reading (same for all three fields). -/
def renderAuthorFieldClaimC1 (sep v : List Char) : List Char :=
  List.intercalate ", ".data ((splitCommaSpace v).map (renderMailPartClaimC1 sep))

/-- The amended claim C1: `author` and `bdfl-delegate` entries are masked
unless allow-listed; `discussions-to` entries are **always** clickable
`mailto:` links. -/
def renderMailPartAmendedC1 (kLower sep part : List Char) : List Char :=
  if '@' ∈ part then
    let p := parseaddrS part
    let m :=
      if kLower = "discussions-to".data ∨ pyLower p.2 ∈ NON_MASKED_EMAILS then
        linkemail p.2 sep
      else maskedEmail p.2
    p.1 ++ " &lt;".data ++ m ++ "&gt;".data
  else if List.isPrefixOf "http:".data part then
    "<a href=\"".data ++ part ++ "\">".data ++ part ++ "</a>".data
  else part

/-- Field value under the amended claim C1. -/
def renderAuthorFieldAmendedC1 (kLower sep v : List Char) : List Char :=
  List.intercalate ", ".data ((splitCommaSpace v).map (renderMailPartAmendedC1 kLower sep))

/-! ## Header fields `replaces` / `superseded-by` / `requires`
(`sep2html.py` lines 246–251) -/

/-- Python `"%i" % n`. -/
def intRepr (n : Int) : List Char :=
  if n < 0 then '-' :: decRepr n.natAbs else decRepr n.natAbs

/-- One cross-reference link, `'<a href="sep-%04d.html">%i</a> '`. -/
def sepRefLink (n : Int) : List Char :=
  "<a href=\"sep-".data ++ padInt 4 n ++ ".html\">".data ++ intRepr n ++ "</a> ".data

/-- The accumulation loop of lines 247–250; `int()` failure raises. -/
def sepRefsGo : List (List Char) → List Char → Except PyErr (List Char)
  | [], acc => .ok acc
  | t :: ts, acc =>
    match pythonInt t with
    | some n => sepRefsGo ts (acc ++ sepRefLink n)
    | none => .error .valueError

/-- Value transform for `replaces` / `superseded-by` / `requires`. -/
def fixSepRefs (v : List Char) : Except PyErr (List Char) :=
  sepRefsGo (splitCommaWs v) []

/-! ## The combined body-line pattern `fixpat` (`sep2html.py` lines 89–94)

`fixpat` is `((https?|ftp):[-_a-zA-Z0-9/.+~:?#$=&,]+)|(sep-\d+(.txt|.rst)?)|
(RFC[- ]?(?P<rfcnum>\d+))|(SEP\s+(?P<sepnum>\d+))|.` and is applied with
`re.sub`: a single left-to-right pass, at each position trying the
alternatives in the listed order; a position where nothing matches (only
possible at a newline, which `.` does not match) is copied through. -/

/-- The character class `[-_a-zA-Z0-9/.+~:?#$=&,]`. -/
def isUrlChar (c : Char) : Bool :=
  c.isAlpha || c.isDigit ||
    (c = '-' || c = '_' || c = '/' || c = '.' || c = '+' || c = '~' ||
     c = ':' || c = '?' || c = '#' || c = '$' || c = '=' || c = '&' || c = ',')

/-- `(https?|ftp):` at the head of `s` (greedy `s?` prefers `https:`). -/
def schemeSplit (s : List Char) : Option (List Char × List Char) :=
  if List.isPrefixOf "https:".data s then some ("https:".data, s.drop 6)
  else if List.isPrefixOf "http:".data s then some ("http:".data, s.drop 5)
  else if List.isPrefixOf "ftp:".data s then some ("ftp:".data, s.drop 4)
  else none

/-- First alternative: a scheme then a maximal nonempty run of URL
characters.  Returns the matched text and the rest of the line. -/
def urlMatch (s : List Char) : Option (List Char × List Char) :=
  match schemeSplit s with
  | none => none
  | some (sch, r) =>
    if (r.takeWhile isUrlChar).isEmpty then none
    else some (sch ++ r.takeWhile isUrlChar, r.dropWhile isUrlChar)

/-- `(.txt` branch of the optional suffix: any character except newline
(the unescaped `.`), then the literal letters `txt`. -/
def sepSuffixTxt (r : List Char) : Option (List Char × List Char) :=
  match r with
  | c :: 't' :: 'x' :: 't' :: r3 => if c = '\n' then none else some ([c, 't', 'x', 't'], r3)
  | _ => none

/-- `.rst)` branch of the optional suffix. -/
def sepSuffixRst (r : List Char) : Option (List Char × List Char) :=
  match r with
  | c :: 'r' :: 's' :: 't' :: r3 => if c = '\n' then none else some ([c, 'r', 's', 't'], r3)
  | _ => none

/-- The optional group `(.txt|.rst)?`, `.txt` tried first. -/
def sepSuffix (r : List Char) : Option (List Char × List Char) :=
  match sepSuffixTxt r with
  | some x => some x
  | none => sepSuffixRst r

/-- Second alternative: `sep-\d+(.txt|.rst)?`. -/
def sepfileMatch (s : List Char) : Option (List Char × List Char) :=
  if List.isPrefixOf "sep-".data s then
    if ((s.drop 4).takeWhile Char.isDigit).isEmpty then none
    else
      match sepSuffix ((s.drop 4).dropWhile Char.isDigit) with
      | some (sfx, r2) =>
        some ("sep-".data ++ (s.drop 4).takeWhile Char.isDigit ++ sfx, r2)
      | none =>
        some ("sep-".data ++ (s.drop 4).takeWhile Char.isDigit,
          (s.drop 4).dropWhile Char.isDigit)
  else none

/-- Third alternative: `RFC[- ]?(?P<rfcnum>\d+)`.  Returns (text, digit
group, rest). -/
def rfcMatch (s : List Char) : Option (List Char × List Char × List Char) :=
  if List.isPrefixOf "RFC".data s then
    match s.drop 3 with
    | [] => none
    | c :: r1 =>
      if c = '-' || c = ' ' then
        if (r1.takeWhile Char.isDigit).isEmpty then none
        else some ("RFC".data ++ c :: r1.takeWhile Char.isDigit,
          r1.takeWhile Char.isDigit, r1.dropWhile Char.isDigit)
      else
        if ((c :: r1).takeWhile Char.isDigit).isEmpty then none
        else some ("RFC".data ++ (c :: r1).takeWhile Char.isDigit,
          (c :: r1).takeWhile Char.isDigit, (c :: r1).dropWhile Char.isDigit)
  else none

/-- Fourth alternative: `SEP\s+(?P<sepnum>\d+)`. -/
def seprefMatch (s : List Char) : Option (List Char × List Char × List Char) :=
  if List.isPrefixOf "SEP".data s then
    if ((s.drop 3).takeWhile pyWs).isEmpty then none
    else
      if (((s.drop 3).dropWhile pyWs).takeWhile Char.isDigit).isEmpty then none
      else some ("SEP".data ++ (s.drop 3).takeWhile pyWs
          ++ ((s.drop 3).dropWhile pyWs).takeWhile Char.isDigit,
        ((s.drop 3).dropWhile pyWs).takeWhile Char.isDigit,
        ((s.drop 3).dropWhile pyWs).dropWhile Char.isDigit)
  else none

/-- One token of the single-pass substitution. -/
inductive FixTok where
  | url (t : List Char)
  | sepfile (t : List Char)
  | rfc (t num : List Char)
  | sepref (t num : List Char)
  | chr (c : Char)
  | raw (c : Char)
deriving DecidableEq, Repr

/-- The text a token covers in the input line. -/
def tokText : FixTok → List Char
  | .url t => t
  | .sepfile t => t
  | .rfc t _ => t
  | .sepref t _ => t
  | .chr c => [c]
  | .raw c => [c]

/-- One step of the scan: the alternatives in the pattern's order, then
the catch-all `.` (which skips newlines, copied through as `raw`). -/
def fixpatStep (s : List Char) : FixTok × List Char :=
  match urlMatch s with
  | some (t, r) => (.url t, r)
  | none =>
    match sepfileMatch s with
    | some (t, r) => (.sepfile t, r)
    | none =>
      match rfcMatch s with
      | some (t, n, r) => (.rfc t n, r)
      | none =>
        match seprefMatch s with
        | some (t, n, r) => (.sepref t n, r)
        | none =>
          match s with
          | c :: cs => (if c = '\n' then (.raw c, cs) else (.chr c, cs))
          | [] => (.raw ' ', [])

/-- Fuel-indexed tokenizer (the fuel only serves structural recursion). -/
def fixpatTokensF : Nat → List Char → List FixTok
  | 0, _ => []
  | _, [] => []
  | fuel + 1, c :: cs =>
    let p := fixpatStep (c :: cs)
    p.1 :: fixpatTokensF fuel p.2

/-- The token stream of a line: leftmost, non-overlapping, first
alternative wins at each position. -/
def fixpatTokens (s : List Char) : List FixTok :=
  fixpatTokensF s.length s

/-- The trailing-punctuation set of `fixanchor` (taken from faqwiz). -/
def PUNCT : List Char := ['(', ')', ';', ':', ',', '.', '?', '\'', '"', '<', '>']

/-- Strip trailing punctuation (the `while ltext: c = ltext.pop() ...`
loop of `fixanchor`). -/
def stripTrailPunct (t : List Char) : List Char :=
  (t.reverse.dropWhile (fun c => PUNCT.contains c)).reverse

/-- `'<a href="%s">%s</a>' % (escape(link), escape(text))`. -/
def anchorHtml (link text : List Char) : List Char :=
  "<a href=\"".data ++ escape link ++ "\">".data ++ escape text ++ "</a>".data

/-- `os.path.splitext(text)[0]` for the tokens reachable here (a token
never contains both a dot and a slash, so splitting at the last dot of
the whole string is exact). -/
def splitextRoot (t : List Char) : List Char :=
  if '.' ∈ t then ((t.reverse.dropWhile (fun c => c ≠ '.')).drop 1).reverse else t

/-- `fixanchor(current, match)` (`sep2html.py` lines 113–135), per token. -/
def fixanchor (current : List Char) : FixTok → List Char
  | .url t =>
    let link := stripTrailPunct t
    if link.isEmpty then escape t else anchorHtml link t
  | .sepfile t =>
    if t = current then escape t
    else anchorHtml (splitextRoot t ++ ".html".data) t
  | .rfc t num =>
    anchorHtml ("http://www.faqs.org/rfcs/rfc".data ++ decRepr (natOfDigits num)
      ++ ".html".data) t
  | .sepref t num =>
    anchorHtml ("sep-".data ++ padInt 4 (natOfDigits num) ++ ".html".data) t
  | .chr c => escape [c]
  | .raw c => [c]

/-- `fixpat.sub(lambda x, c=inpath: fixanchor(c, x), line)`. -/
def fixpatSub (current s : List Char) : List Char :=
  ((fixpatTokens s).map (fixanchor current)).flatten

/-! ### Structural facts about the single-pass scan -/

theorem isPrefixOf_append_drop {p s : List Char} (h : List.isPrefixOf p s = true) :
    p ++ s.drop p.length = s :=
  List.prefix_iff_eq_append.mp (List.isPrefixOf_iff_prefix.mp h)

theorem schemeSplit_spec {s p r : List Char} (h : schemeSplit s = some (p, r)) :
    p ++ r = s ∧ p ≠ [] ∧
      (p = "https:".data ∨ p = "http:".data ∨ p = "ftp:".data) := by
  unfold schemeSplit at h
  split_ifs at h with h1 h2 h3
  · simp only [Option.some.injEq, Prod.mk.injEq] at h
    obtain ⟨rfl, rfl⟩ := h
    have hd := isPrefixOf_append_drop h1
    have hl : ("https:".data).length = 6 := rfl
    rw [hl] at hd
    exact ⟨hd, by decide, Or.inl rfl⟩
  · simp only [Option.some.injEq, Prod.mk.injEq] at h
    obtain ⟨rfl, rfl⟩ := h
    have hd := isPrefixOf_append_drop h2
    have hl : ("http:".data).length = 5 := rfl
    rw [hl] at hd
    exact ⟨hd, by decide, Or.inr (Or.inl rfl)⟩
  · simp only [Option.some.injEq, Prod.mk.injEq] at h
    obtain ⟨rfl, rfl⟩ := h
    have hd := isPrefixOf_append_drop h3
    have hl : ("ftp:".data).length = 4 := rfl
    rw [hl] at hd
    exact ⟨hd, by decide, Or.inr (Or.inr rfl)⟩

theorem urlMatch_spec {s t r : List Char} (h : urlMatch s = some (t, r)) :
    t ++ r = s ∧ t ≠ [] := by
  unfold urlMatch at h
  split at h
  · exact absurd h (by simp)
  · rename_i sch rest hs
    obtain ⟨hsp, hsne, _⟩ := schemeSplit_spec hs
    split_ifs at h with hc
    simp only [Option.some.injEq, Prod.mk.injEq] at h
    obtain ⟨rfl, rfl⟩ := h
    constructor
    · rw [List.append_assoc, List.takeWhile_append_dropWhile]
      exact hsp
    · intro hn
      exact hsne (List.append_eq_nil.mp hn).1

theorem sepSuffixTxt_spec {r sfx r2 : List Char} (h : sepSuffixTxt r = some (sfx, r2)) :
    sfx ++ r2 = r := by
  unfold sepSuffixTxt at h
  split at h
  · split_ifs at h with hc
    simp only [Option.some.injEq, Prod.mk.injEq] at h
    obtain ⟨rfl, rfl⟩ := h
    rfl
  · exact absurd h (by simp)

theorem sepSuffixRst_spec {r sfx r2 : List Char} (h : sepSuffixRst r = some (sfx, r2)) :
    sfx ++ r2 = r := by
  unfold sepSuffixRst at h
  split at h
  · split_ifs at h with hc
    simp only [Option.some.injEq, Prod.mk.injEq] at h
    obtain ⟨rfl, rfl⟩ := h
    rfl
  · exact absurd h (by simp)

theorem sepSuffix_spec {r sfx r2 : List Char} (h : sepSuffix r = some (sfx, r2)) :
    sfx ++ r2 = r := by
  unfold sepSuffix at h
  split at h
  · rename_i x hx
    simp only [Option.some.injEq] at h
    subst h
    exact sepSuffixTxt_spec hx
  · exact sepSuffixRst_spec h

theorem sepfileMatch_spec {s t r : List Char} (h : sepfileMatch s = some (t, r)) :
    t ++ r = s ∧ t ≠ [] := by
  unfold sepfileMatch at h
  split_ifs at h with h1 h2
  have hd := isPrefixOf_append_drop h1
  have hl : ("sep-".data).length = 4 := rfl
  rw [hl] at hd
  split at h
  · rename_i sfx r2 hsfx
    simp only [Option.some.injEq, Prod.mk.injEq] at h
    obtain ⟨rfl, rfl⟩ := h
    refine ⟨?_, by simp⟩
    rw [List.append_assoc, List.append_assoc, sepSuffix_spec hsfx,
      List.takeWhile_append_dropWhile]
    exact hd
  · simp only [Option.some.injEq, Prod.mk.injEq] at h
    obtain ⟨rfl, rfl⟩ := h
    refine ⟨?_, by simp⟩
    rw [List.append_assoc, List.takeWhile_append_dropWhile]
    exact hd

theorem rfcMatch_spec {s t n r : List Char} (h : rfcMatch s = some (t, n, r)) :
    t ++ r = s ∧ t ≠ [] := by
  unfold rfcMatch at h
  split_ifs at h with h1
  have hd := isPrefixOf_append_drop h1
  have hl : ("RFC".data).length = 3 := rfl
  rw [hl] at hd
  split at h
  · exact absurd h (by simp)
  · rename_i c r1 heq
    rw [heq] at hd
    split_ifs at h with hsep hds hds
    · simp only [Option.some.injEq, Prod.mk.injEq] at h
      obtain ⟨rfl, rfl, rfl⟩ := h
      refine ⟨?_, by simp⟩
      rw [List.append_assoc]
      show "RFC".data ++ c :: (r1.takeWhile Char.isDigit ++ r1.dropWhile Char.isDigit) = s
      rw [List.takeWhile_append_dropWhile]
      exact hd
    · simp only [Option.some.injEq, Prod.mk.injEq] at h
      obtain ⟨rfl, rfl, rfl⟩ := h
      refine ⟨?_, by simp⟩
      rw [List.append_assoc, List.takeWhile_append_dropWhile]
      exact hd

theorem seprefMatch_spec {s t n r : List Char} (h : seprefMatch s = some (t, n, r)) :
    t ++ r = s ∧ t ≠ [] := by
  unfold seprefMatch at h
  split_ifs at h with h1 h2 h3
  · simp only [Option.some.injEq, Prod.mk.injEq] at h
    obtain ⟨rfl, rfl, rfl⟩ := h
    have hd := isPrefixOf_append_drop h1
    have hl : ("SEP".data).length = 3 := rfl
    rw [hl] at hd
    refine ⟨?_, by simp⟩
    rw [List.append_assoc, List.append_assoc, List.takeWhile_append_dropWhile,
      List.takeWhile_append_dropWhile]
    exact hd

theorem fixpatStep_eq_spec {s : List Char} {tok : FixTok} {rest : List Char}
    (hs : s ≠ []) (h : fixpatStep s = (tok, rest)) :
    tokText tok ++ rest = s ∧ tokText tok ≠ [] := by
  unfold fixpatStep at h
  split at h
  · rename_i t r hu
    simp only [Prod.mk.injEq] at h
    obtain ⟨rfl, rfl⟩ := h
    obtain ⟨hap, hne⟩ := urlMatch_spec hu
    exact ⟨hap, hne⟩
  · split at h
    · rename_i t r hm
      simp only [Prod.mk.injEq] at h
      obtain ⟨rfl, rfl⟩ := h
      obtain ⟨hap, hne⟩ := sepfileMatch_spec hm
      exact ⟨hap, hne⟩
    · split at h
      · rename_i t nn r hm
        simp only [Prod.mk.injEq] at h
        obtain ⟨rfl, rfl⟩ := h
        obtain ⟨hap, hne⟩ := rfcMatch_spec hm
        exact ⟨hap, hne⟩
      · split at h
        · rename_i t nn r hm
          simp only [Prod.mk.injEq] at h
          obtain ⟨rfl, rfl⟩ := h
          obtain ⟨hap, hne⟩ := seprefMatch_spec hm
          exact ⟨hap, hne⟩
        · split at h
          · rename_i c cs
            split_ifs at h <;>
              (simp only [Prod.mk.injEq] at h
               obtain ⟨rfl, rfl⟩ := h
               exact ⟨rfl, by simp [tokText]⟩)
          · exact absurd rfl hs

theorem fixpatStep_snd_lt {s : List Char} (hs : s ≠ []) :
    (fixpatStep s).2.length < s.length := by
  rcases hp : fixpatStep s with ⟨tok, rest⟩
  obtain ⟨hap, hne⟩ := fixpatStep_eq_spec hs hp
  show rest.length < s.length
  have hlen := congrArg List.length hap
  rw [List.length_append] at hlen
  have hpos : 0 < (tokText tok).length := List.length_pos.mpr hne
  omega

theorem fixpatTokensF_fuel {f1 : Nat} : ∀ {f2 : Nat} {s : List Char},
    s.length ≤ f1 → s.length ≤ f2 → fixpatTokensF f1 s = fixpatTokensF f2 s := by
  induction f1 with
  | zero =>
    intro f2 s h1 _
    have : s = [] := List.length_eq_zero.mp (Nat.le_zero.mp h1)
    subst this
    cases f2 <;> rfl
  | succ f ih =>
    intro f2 s h1 h2
    cases s with
    | nil => cases f2 <;> rfl
    | cons c cs =>
      cases f2 with
      | zero => simp at h2
      | succ g =>
        simp only [fixpatTokensF]
        have hlt := fixpatStep_snd_lt (show c :: cs ≠ [] by simp)
        simp only [List.length_cons] at h1 h2 hlt
        congr 1
        have hf : (fixpatStep (c :: cs)).2.length ≤ f := by omega
        have hg : (fixpatStep (c :: cs)).2.length ≤ g := by omega
        exact ih hf hg

theorem fixpatTokensF_join {f : Nat} : ∀ {s : List Char}, s.length ≤ f →
    ((fixpatTokensF f s).map tokText).flatten = s := by
  induction f with
  | zero =>
    intro s h
    have : s = [] := List.length_eq_zero.mp (Nat.le_zero.mp h)
    subst this
    rfl
  | succ f ih =>
    intro s h
    cases s with
    | nil => rfl
    | cons c cs =>
      simp only [fixpatTokensF, List.map_cons, List.flatten_cons]
      have hne : (c :: cs) ≠ [] := by simp
      obtain ⟨hap, _⟩ := fixpatStep_eq_spec hne rfl
      have hlt := fixpatStep_snd_lt hne
      simp only [List.length_cons] at h hlt
      rw [ih (by omega)]
      exact hap

/-- The scan is a partition of the line: concatenating the texts of the
tokens gives the line back (single pass, non-overlapping, covering). -/
theorem fixpatTokens_join (s : List Char) :
    ((fixpatTokens s).map tokText).flatten = s :=
  fixpatTokensF_join (Nat.le_refl _)

/-- If the URL alternative matches at a position, it is the token taken
there: the URL alternative has priority over all later alternatives. -/
theorem fixpatTokens_url_priority {s t r : List Char}
    (h : urlMatch s = some (t, r)) :
    fixpatTokens s = .url t :: fixpatTokens r := by
  obtain ⟨hap, hne⟩ := urlMatch_spec h
  have hs : s ≠ [] := by
    intro he
    subst he
    exact hne (List.append_eq_nil.mp hap).1
  have hstep : fixpatStep s = (.url t, r) := by
    unfold fixpatStep
    rw [h]
  obtain ⟨c, cs, rfl⟩ : ∃ c cs, s = c :: cs := by
    cases s with
    | nil => exact absurd rfl hs
    | cons c cs => exact ⟨c, cs, rfl⟩
  unfold fixpatTokens
  simp only [List.length_cons, fixpatTokensF, hstep]
  congr 1
  apply fixpatTokensF_fuel
  · have hlen := congrArg List.length hap
    simp only [List.length_append, List.length_cons] at hlen
    have hpos : 0 < t.length := List.length_pos.mpr hne
    omega
  · exact Nat.le_refl _

/-! ## Header parsing (`fixfile`, `sep2html.py` lines 176–196) -/

/-- The header-parsing loop.  A blank line or a column-0 line without a
colon ends the header (that line is consumed); a column-0 line with a
colon appends a `(key, value.strip())` pair; a line starting with
whitespace is a continuation appended (newline included) to the last
pair, raising `IndexError` when there is none.  After every line the
current key updates `title` / `sep`. -/
def parseHeaderGo : List (List Char) → List (List Char × List Char) →
    List Char → List Char →
    Except PyErr (List (List Char × List Char) × List Char × List Char × List (List Char))
  | [], header, sep, title => .ok (header, sep, title, [])
  | line :: rest, header, sep, title =>
    if pyStrip line = [] then .ok (header, sep, title, rest)
    else if line.head?.any (fun c => !pyWs c) then
      if ':' ∈ line then
        parseHeaderGo rest
          (header ++ [(line.takeWhile (fun c => c ≠ ':'),
            pyStrip ((line.dropWhile (fun c => c ≠ ':')).drop 1))])
          (if pyLower (line.takeWhile (fun c => c ≠ ':')) = "sep".data then
            pyStrip ((line.dropWhile (fun c => c ≠ ':')).drop 1) else sep)
          (if pyLower (line.takeWhile (fun c => c ≠ ':')) = "title".data then
            pyStrip ((line.dropWhile (fun c => c ≠ ':')).drop 1) else title)
      else .ok (header, sep, title, rest)
    else
      match header.getLast? with
      | none => .error .indexError
      | some kv =>
        parseHeaderGo rest (header.dropLast ++ [(kv.1, kv.2 ++ line)])
          (if pyLower kv.1 = "sep".data then kv.2 ++ line else sep)
          (if pyLower kv.1 = "title".data then kv.2 ++ line else title)

/-- `fixfile`'s header parse, starting from empty state. -/
def parseHeader (lines : List (List Char)) :
    Except PyErr (List (List Char × List Char) × List Char × List Char × List (List Char)) :=
  parseHeaderGo lines [] [] []

/-! ## Remaining header-field transforms (`sep2html.py` lines 252–272) -/

/-- `SEPCVSURL % n`. -/
def sepCvsUrl (n : Int) : List Char :=
  "https://hg.python.org/peps/file/tip/pep-".data ++ padInt 4 n ++ ".txt".data

/-- `last-modified` value (lines 252–263): empty value falls back to the
file's formatted modification time (`mtimeStr`); a `$Date: ... $` keyword
wrapper loses its first 6 and last 2 characters; the index document gets
plain text, others a source-browsing link when the document number parses. -/
def lastModifiedVal (v basename sep mtimeStr : List Char) : List Char :=
  let date0 := if v = [] then mtimeStr else v
  let date :=
    if List.isPrefixOf "$Date: ".data date0 && List.isSuffixOf " $".data date0 then
      (date0.drop 6).dropLast.dropLast
    else date0
  if basename = "sep-0000.txt".data then date
  else
    match pythonInt sep with
    | some n =>
      "<a href=\"".data ++ sepCvsUrl n ++ "\">".data ++ escape date ++ "</a> ".data
    | none => date

/-- `content-type` value (lines 264–267). -/
def contentTypeVal (v : List Char) : List Char :=
  "<a href=\"sep-0009.html\">".data
    ++ escape (if v = [] then "text/plain".data else v) ++ "</a> ".data

/-- `version` value (lines 268–270): the `$Revision: ... $` wrapper is
stripped and escaped; any other value passes through **unescaped**. -/
def versionVal (v : List Char) : List Char :=
  if List.isPrefixOf "$Revision: ".data v && List.isSuffixOf " $".data v then
    escape ((v.drop 11).dropLast.dropLast)
  else v

/-- The per-field dispatch of the header table loop (lines 230–272). -/
def fieldValue (basename sep mtimeStr k v : List Char) : Except PyErr (List Char) :=
  if pyLower k = "author".data ∨ pyLower k = "bdfl-delegate".data
      ∨ pyLower k = "discussions-to".data then
    .ok (renderAuthorField (pyLower k) sep v)
  else if pyLower k = "replaces".data ∨ pyLower k = "superseded-by".data
      ∨ pyLower k = "requires".data then
    fixSepRefs v
  else if pyLower k = "last-modified".data then
    .ok (lastModifiedVal v basename sep mtimeStr)
  else if pyLower k = "content-type".data then .ok (contentTypeVal v)
  else if pyLower k = "version".data then .ok (versionVal v)
  else .ok (escape v)

/-- The header table loop: one `<tr>` per field, stopping at the first
uncaught exception (output printed before the failure is kept). -/
def headerRows (basename sep mtimeStr : List Char) :
    List (List Char × List Char) → List Char × Option PyErr
  | [] => ([], none)
  | kv :: rest =>
    match fieldValue basename sep mtimeStr kv.1 kv.2 with
    | .ok v2 =>
      let tl := headerRows basename sep mtimeStr rest
      ("  <tr><th>".data ++ escape kv.1 ++ ":&nbsp;</th><td>".data ++ v2
          ++ "</td></tr>\n".data ++ tl.1, tl.2)
    | .error e => ([], some e)

/-! ## Body rendering (`sep2html.py` lines 278–323) -/

/-- `re.sub(pat, repl, s, 1)` for the literal patterns used in the
SEP-0 special cases (a digit token is metacharacter-free; email tokens
are treated literally, which coincides with the regex behaviour whenever
the earliest regex match is the literal occurrence). -/
def pyReSub1Lit (pat repl : List Char) : List Char → List Char
  | [] => if List.isPrefixOf pat [] then repl else []
  | c :: cs =>
    if List.isPrefixOf pat (c :: cs) then repl ++ (c :: cs).drop pat.length
    else c :: pyReSub1Lit pat repl cs

/-- `LOCALVARS`. -/
def LOCALVARS : List Char := "Local Variables:".data

/-- The content printed for a non-heading, non-skipped body line
(everything in lines 292–317 up to the `need_pre` bookkeeping):
SEP-0 index-summary and email lines get a first-occurrence substitution,
everything else goes through the combined pattern. -/
def bodyContentLine (basename sep inpath line : List Char) : Except PyErr (List Char) :=
  if basename = "sep-0000.txt".data then
    if (pySplit line).length > 1
        && ((pySplit line).getD 1 []).head?.any Char.isDigit then
      match pythonInt ((pySplit line).getD 1 []) with
      | some n =>
        .ok (pyReSub1Lit ((pySplit line).getD 1 [])
          ("<a href=\"sep-".data ++ padInt 4 n ++ ".html\">".data
            ++ (pySplit line).getD 1 [] ++ "</a>".data) line)
      | none => .error .valueError
    else if (pySplit line) ≠ [] && '@' ∈ ((pySplit line).getLastD []) then
      .ok (pyReSub1Lit ((pySplit line).getLastD [])
        (fixemail ((pySplit line).getLastD []) sep) line)
    else .ok (fixpatSub inpath line)
  else .ok (fixpatSub inpath line)

/-- The body loop (lines 278–321): returns the output it printed, the
final `need_pre` state, and an uncaught exception if one was raised. -/
def bodyLoop (basename sep inpath : List Char) :
    List (List Char) → Bool → List Char × Bool × Option PyErr
  | [], needPre => ([], needPre, none)
  | line :: rest, needPre =>
    match line with
    | [] => ([], needPre, some .indexError)
    | c :: _ =>
      if c = '\x0c' then bodyLoop basename sep inpath rest needPre
      else if pyStrip line = LOCALVARS then ([], needPre, none)
      else if !pyWs c then
        let tl := bodyLoop basename sep inpath rest true
        ((if needPre then [] else "</pre>\n".data) ++ "<h3>".data ++ pyStrip line
            ++ "</h3>\n".data ++ tl.1, tl.2)
      else if pyStrip line = [] && needPre then bodyLoop basename sep inpath rest needPre
      else
        match bodyContentLine basename sep inpath line with
        | .ok cont =>
          let tl := bodyLoop basename sep inpath rest false
          ((if needPre then "<pre>\n".data else []) ++ cont ++ tl.1, tl.2)
        | .error e => ([], needPre, some e)

/-! ## Document assembly (`fixfile`, `sep2html.py` lines 163–327) -/

/-- `DTD`. -/
def DTD : List Char :=
  ("<!DOCTYPE html PUBLIC \"-//W3C//DTD HTML 4.0 Transitional//EN\"\n"
    ++ "                      \"http://www.w3.org/TR/REC-html40/loose.dtd\">").data

/-- `COMMENT`. -/
def COMMENT : List Char :=
  ("<!--\nThis HTML is auto-generated.  DO NOT EDIT THIS FILE!  If you are writing a new\n"
    ++ "SEP, see http://www.python.org/seps/sep-0001.html for instructions and links\n"
    ++ "to templates.  DO NOT USE THIS HTML FILE AS YOUR TEMPLATE!\n-->").data

/-- The four `print`s before the header is read (lines 171–174). -/
def headOut : List Char :=
  DTD ++ "\n<html>\n".data ++ COMMENT ++ "\n<head>\n".data

/-- Title element (lines 197–200): a document number turns the title into
`SEP <n> -- <title>`; an empty final title prints nothing. -/
def titleBlock (sep title : List Char) : List Char :=
  if (if sep ≠ [] then "SEP ".data ++ sep ++ " -- ".data ++ title else title) ≠ [] then
    "  <title>".data
      ++ escape (if sep ≠ [] then "SEP ".data ++ sep ++ " -- ".data ++ title else title)
      ++ "</title>\n".data
  else []

/-- Navigation/banner block (lines 201–217) up to the `%03d` banner
index. -/
def bannerPre : List Char :=
  ("  <link rel=\"STYLESHEET\" href=\"style.css\" type=\"text/css\" />\n</head>\n"
    ++ "<body bgcolor=\"white\">\n"
    ++ "<table class=\"navigation\" cellpadding=\"0\" cellspacing=\"0\"\n"
    ++ "       width=\"100%\" border=\"0\">\n"
    ++ "<tr><td class=\"navicon\" width=\"150\" height=\"35\">\n"
    ++ "<a href=\"../\" title=\"Python Home Page\">\n<img src=\"../pics/PyBanner").data

/-- Navigation/banner block after the banner index. -/
def bannerPost : List Char :=
  (".gif\" alt=\"[Python]\"\n border=\"0\" width=\"150\" height=\"35\" /></a></td>\n"
    ++ "<td class=\"textlinks\" align=\"left\">\n"
    ++ "[<b><a href=\"../\">Python Home</a></b>]\n").data

/-- The `SEP Index` link line (lines 218–219), absent for the index
document itself. -/
def indexLine (basename : List Char) : List Char :=
  if basename ≠ "sep-0000.txt".data then "[<b><a href=\".\">SEP Index</a></b>]\n".data
  else []

/-- The stderr line printed when the `Sep` header is not an integer;
the text embeds Python's `int()` error message. -/
def valueErrorMsg (sep : List Char) : List Char :=
  "ValueError (invalid SEP number): invalid literal for int() with base 10: ".data
    ++ '\'' :: sep ++ ['\'']

/-- The `SEP Source` link (lines 220–227): printed only when the `Sep`
header is nonempty and parses as an integer; a `ValueError` is caught and
reported as a warning instead.  Returns (stdout text, stderr lines). -/
def sourceBlock (sep : List Char) : List Char × List (List Char) :=
  if sep = [] then ([], [])
  else
    match pythonInt sep with
    | some n =>
      ("[<b><a href=\"sep-".data ++ padInt 4 n
        ++ ".txt\">SEP Source</a></b>]\n".data, [])
    | none => ([], [valueErrorMsg sep])

/-- Everything `fixfile` prints after the banner block: index/source
links, the header table, and the body.  Returns (stdout, stderr lines,
uncaught exception). -/
def fixfileTail (inpath basename sep mtimeStr : List Char)
    (header : List (List Char × List Char)) (rest : List (List Char)) :
    List Char × List (List Char) × Option PyErr :=
  let src := sourceBlock sep
  let mid := indexLine basename ++ src.1 ++ "</td></tr></table>\n".data
    ++ "<div class=\"header\">\n<table border=\"0\">\n".data
  let rows := headerRows basename sep mtimeStr header
  match rows.2 with
  | some e => (mid ++ rows.1, src.2, some e)
  | none =>
    let body := bodyLoop basename sep inpath rest true
    match body.2.2 with
    | some e =>
      (mid ++ rows.1 ++ "</table>\n</div>\n<hr />\n<div class=\"content\">\n".data
        ++ body.1, src.2, some e)
    | none =>
      (mid ++ rows.1 ++ "</table>\n</div>\n<hr />\n<div class=\"content\">\n".data
        ++ body.1 ++ (if body.2.1 then [] else "</pre>\n".data)
        ++ "</div>\n</body>\n</html>\n".data, src.2, none)

/-- `os.path.basename` (no trailing-slash subtleties needed here). -/
def basenameOf (p : List Char) : List Char :=
  (p.reverse.takeWhile (fun c => c ≠ '/')).reverse

/-- The observable outcome of one `fixfile` run: the bytes written to the
output file (up to the point of an uncaught exception, if any), the
stderr lines, and the uncaught exception. -/
structure FixfileOut where
  out : List Char
  warnings : List (List Char)
  err : Option PyErr
deriving DecidableEq, Repr

/-- `fixfile(inpath, input_lines, outfile)` with the two environment
inputs made explicit: `mtimeStr` is `time.strftime("%d-%b-%Y", ...)` of
the file's modification time, and `r` is the `random.choice(range(64))`
banner index. -/
def fixfileRun (inpath : List Char) (lines : List (List Char))
    (mtimeStr : List Char) (r : Nat) : FixfileOut :=
  match parseHeader lines with
  | .error e => ⟨headOut, [], some e⟩
  | .ok (header, sep, title, rest) =>
    let t := fixfileTail inpath (basenameOf inpath) sep mtimeStr header rest
    ⟨headOut ++ titleBlock sep title ++ bannerPre ++ padInt 3 (r : Int) ++ bannerPost
        ++ t.1,
      t.2.1, t.2.2⟩

/-! ## The feed builder (`sep2rss.py`)

A document is modelled as `(path, lines)`; the directory scan and the
feed serialization library are outside the model. -/

/-- Uncaught Python exceptions of `sep2rss.py` that our model tracks. -/
inductive RssErr where
  | typeError : RssErr
  | valueError : RssErr
  | nameError : RssErr
deriving DecidableEq, Repr

/-- `firstline_startingwith(full_path, text)`. -/
def firstlineStartingwith : List (List Char) → List Char → Option (List Char)
  | [], _ => none
  | l :: ls, text =>
    if List.isPrefixOf text l then some (pyStrip (l.drop text.length))
    else firstlineStartingwith ls text

/-- The regex class `\w` (ASCII). -/
def isWordChar (c : Char) : Bool :=
  c.isAlpha || c.isDigit || c = '_'

/-- The pattern `(\d+-\w+-\d{4})` anchored at the head of `s`: a digit
run, a dash, a word-character run, a dash, four digits.  (Backtracking
into the greedy runs can never succeed because a shorter run ends at a
run character, not a dash, so the committed parse is exact.) -/
def dateMatchAt (s : List Char) : Option (List Char) :=
  if (s.takeWhile Char.isDigit).isEmpty then none
  else
    match s.dropWhile Char.isDigit with
    | '-' :: r1 =>
      if (r1.takeWhile isWordChar).isEmpty then none
      else
        match r1.dropWhile isWordChar with
        | '-' :: r2 =>
          if 4 ≤ (r2.takeWhile Char.isDigit).length then
            some (s.takeWhile Char.isDigit ++ '-' :: r1.takeWhile isWordChar
              ++ '-' :: r2.take 4)
          else none
        | _ => none
    | _ => none

/-- `re.search(r"(\d+-\w+-\d{4})", s)`: leftmost match. -/
def reSearchDate : List Char → Option (List Char)
  | [] => none
  | c :: cs =>
    match dateMatchAt (c :: cs) with
    | some m => some m
    | none => reSearchDate cs

/-- A calendar date `(year, month, day)`; `datetime` values compare
lexicographically and the time-of-day components are all zero here. -/
abbrev Date := Nat × Nat × Nat

/-- `datetime.datetime(*time.localtime(0)[:6])` — the Unix epoch,
assuming a UTC environment. -/
def epochDate : Date := (1970, 1, 1)

def digitVal (c : Char) : Nat := c.toNat - '0'.toNat

/-- The `%d` directive of `strptime`: the regex
`(3[01]|[12]\d|0[1-9]|[1-9])`, alternatives in that order. -/
def parseDay : List Char → Option (Nat × List Char)
  | [] => none
  | c1 :: rest1 =>
    match rest1 with
    | c2 :: r =>
      if c1 = '3' && (c2 = '0' || c2 = '1') then some (30 + digitVal c2, r)
      else if (c1 = '1' || c1 = '2') && c2.isDigit then
        some (10 * digitVal c1 + digitVal c2, r)
      else if c1 = '0' && ('1' ≤ c2 && c2 ≤ '9') then some (digitVal c2, r)
      else if '1' ≤ c1 && c1 ≤ '9' then some (digitVal c1, c2 :: r)
      else none
    | [] => if '1' ≤ c1 && c1 ≤ '9' then some (digitVal c1, []) else none

/-- `%b` month names (C locale), lowercased. -/
def monthAbbrs : List (List Char) :=
  ["jan".data, "feb".data, "mar".data, "apr".data, "may".data, "jun".data,
   "jul".data, "aug".data, "sep".data, "oct".data, "nov".data, "dec".data]

/-- `%B` month names (C locale), lowercased. -/
def monthFulls : List (List Char) :=
  ["january".data, "february".data, "march".data, "april".data, "may".data,
   "june".data, "july".data, "august".data, "september".data, "october".data,
   "november".data, "december".data]

/-- Case-insensitive month-name match at the head of `s`; returns the
1-based month number and the rest. -/
def findMonth : List (List Char) → Nat → List Char → Option (Nat × List Char)
  | [], _, _ => none
  | name :: names, i, s =>
    if List.isPrefixOf name (pyLower s) then some (i, s.drop name.length)
    else findMonth names (i + 1) s

def isLeapYear (y : Nat) : Bool :=
  (y % 4 = 0 && y % 100 ≠ 0) || y % 400 = 0

def daysInMonth (y m : Nat) : Nat :=
  if m = 2 then (if isLeapYear y then 29 else 28)
  else if m = 4 || m = 6 || m = 9 || m = 11 then 30
  else 31

/-- `time.strptime(s, "%d-<month>-%Y")` followed by the
`datetime.datetime(*t[:6])` constructor (which validates the date).
The whole string must be consumed (`%Y` is exactly four digits). -/
def strptimeDMY (names : List (List Char)) (s : List Char) : Option Date :=
  match parseDay s with
  | none => none
  | some (day, r0) =>
    match r0 with
    | '-' :: r1 =>
      match findMonth names 1 r1 with
      | none => none
      | some (month, r2) =>
        match r2 with
        | '-' :: r3 =>
          if r3.length = 4 && r3.all Char.isDigit
              && 1 ≤ natOfDigits (r3.take 4) && 1 ≤ day
              && day ≤ daysInMonth (natOfDigits (r3.take 4)) month then
            some (natOfDigits (r3.take 4), month, day)
          else none
        | _ => none
    | _ => none

/-- `sep_creation_dt(full_path)` (`sep2rss.py` lines 25–41), over the
file's lines: no `Created:` line raises `TypeError` (`re.search` on
`None`); no date substring falls back to the epoch; `strptime` is tried
with `%d-%b-%Y` then `%d-%B-%Y`, a double failure raising `ValueError`. -/
def sepCreationDt (lines : List (List Char)) : Except RssErr Date :=
  match firstlineStartingwith lines "Created:".data with
  | none => .error .typeError
  | some createdStr =>
    match reSearchDate createdStr with
    | none => .ok epochDate
    | some m =>
      match strptimeDMY monthAbbrs m with
      | some d => .ok d
      | none =>
        match strptimeDMY monthFulls m with
        | some d => .ok d
        | none => .error .valueError

/-- Strict lexicographic order on dates (`datetime` comparison). -/
def dateLt (a b : Date) : Bool :=
  a.1 < b.1 || (a.1 = b.1 && (a.2.1 < b.2.1 || (a.2.1 = b.2.1 && a.2.2 < b.2.2)))

/-- Strict lexicographic order on strings (Python `str` comparison,
code points). -/
def strLt : List Char → List Char → Bool
  | [], [] => false
  | [], _ :: _ => true
  | _ :: _, [] => false
  | c :: cs, d :: ds => c < d || (c = d && strLt cs ds)

/-- Strict order on `(creation date, path, lines)` entries, comparing the
`(datetime, path)` tuple exactly as Python's pair comparison does. -/
def entryLt (a b : Date × List Char × List (List Char)) : Bool :=
  dateLt a.1 b.1 || (a.1 = b.1 && strLt a.2.1 b.2.1)

/-- Stable descending insertion (`list.sort(reverse=True)` semantics):
an element moves past exactly the strictly smaller ones. -/
def insertDesc (x : Date × List Char × List (List Char)) :
    List (Date × List Char × List (List Char)) →
    List (Date × List Char × List (List Char))
  | [] => [x]
  | y :: ys => if entryLt x y then y :: insertDesc x ys else x :: y :: ys

/-- `seps_with_dt.sort(reverse=True)`. -/
def sortDescEntries : List (Date × List Char × List (List Char)) →
    List (Date × List Char × List (List Char))
  | [] => []
  | x :: xs => insertDesc x (sortDescEntries xs)

/-- One syndication feed item. -/
structure RssItem where
  title : List Char
  link : List Char
  description : List Char
  guid : List Char
  pubDate : Date
deriving DecidableEq, Repr

/-- Python `"%s" % x` for an optional string (`None` prints as `None`). -/
def optStr : Option (List Char) → List Char
  | some s => s
  | none => "None".data

/-- `"http://www.python.org/dev/seps/sep-%0.4d" % n` (precision pads the
digits after the sign). -/
def rssUrl (n : Int) : List Char :=
  "http://www.python.org/dev/seps/sep-".data
    ++ (if n < 0 then
          '-' :: (List.replicate (4 - (decRepr n.natAbs).length) '0' ++ decRepr n.natAbs)
        else List.replicate (4 - (decRepr n.natAbs).length) '0' ++ decRepr n.natAbs)

/-- `full_path.split("-")[-1].split(".")[0]`. -/
def fileNumTok (path : List Char) : List Char :=
  ((path.reverse.takeWhile (fun c => c ≠ '-')).reverse).takeWhile (fun c => c ≠ '.')

/-- The item loop (`sep2rss.py` lines 49–65).  `n` starts unbound
(`none`); a failing `int()` is swallowed, leaving `n` at its previous
value; using `n` while still unbound raises `NameError`. -/
def itemsGo : List (Date × List Char × List (List Char)) → Option Int →
    Except RssErr (List RssItem)
  | [], _ => .ok []
  | d :: ds, nPrev =>
    match (match pythonInt (fileNumTok d.2.1) with
           | some k => some k
           | none => nPrev) with
    | none => .error .nameError
    | some k =>
      match itemsGo ds (some k) with
      | .ok items =>
        .ok ({ title := "SEP ".data ++ intRepr k ++ ": ".data
                 ++ optStr (firstlineStartingwith d.2.2 "Title:".data)
               link := rssUrl k
               description := "Author: ".data
                 ++ optStr (firstlineStartingwith d.2.2 "Author:".data)
               guid := rssUrl k
               pubDate := d.1 } :: items)
      | .error e => .error e

/-- The `seps_with_dt` list comprehension: every document's creation
date is computed (an exception in any of them aborts the run). -/
def sepsWithDt : List (List Char × List (List Char)) →
    Except RssErr (List (Date × List Char × List (List Char)))
  | [] => .ok []
  | d :: ds =>
    match sepCreationDt d.2 with
    | .ok dt =>
      match sepsWithDt ds with
      | .ok r => .ok ((dt, d.1, d.2) :: r)
      | .error e => .error e
    | .error e => .error e

/-- The whole feed computation: date each document, sort newest first,
build items for the first 10. -/
def sep2rss (docs : List (List Char × List (List Char))) : Except RssErr (List RssItem) :=
  match sepsWithDt docs with
  | .error e => .error e
  | .ok pairs => itemsGo ((sortDescEntries pairs).take 10) none

/-! ## Concrete documents used by the claim theorems -/

/-- A plaintext document whose `Replaces` header holds a non-integer. -/
def replacesAbcDoc : List (List Char) :=
  ["Sep: 1\n".data, "Title: T\n".data, "Replaces: abc\n".data, "\n".data,
   " Body\n".data]

/-! ## Claim C1 -/

theorem renderMailPart_eq_amended (kLower sep part : List Char) :
    renderMailPart kLower sep part = renderMailPartAmendedC1 kLower sep part := by
  unfold renderMailPart renderMailPartAmendedC1 fixemail
  by_cases h1 : '@' ∈ part
  · simp only [if_pos h1]
    by_cases h2 : kLower = "discussions-to".data
    · simp [h2]
    · by_cases h3 : pyLower (parseaddrS part).2 ∈ NON_MASKED_EMAILS <;>
        simp [h2, h3]
  · simp [h1]

/-- Claim C1, as stated, is false at the field `discussions-to` with the
single non-allow-listed entry `user@example.org`: the code renders a
clickable `mailto:` link (via `linkemail`), where the claim prescribes
the masked, link-free form. -/
theorem discussionsTo_not_masked_counterexample :
    pyLower "user@example.org".data ∉ NON_MASKED_EMAILS ∧
    renderAuthorFieldClaimC1 "42".data "user@example.org".data
      = " &lt;user&#32;&#97;t&#32;example.org&gt;".data ∧
    renderAuthorField "discussions-to".data "42".data "user@example.org".data
      = (" &lt;<a href=\"mailto:user&#64;example.org?subject=SEP%2042\">"
          ++ "user&#32;&#97;t&#32;example.org</a>&gt;").data ∧
    renderAuthorField "discussions-to".data "42".data "user@example.org".data
      ≠ renderAuthorFieldClaimC1 "42".data "user@example.org".data := by
  refine ⟨by decide, by decide, by decide, by decide⟩

/-- Amended claim C1: the renderer splits the value on commas; for
`author` and `bdfl-delegate` an entry containing `@` is mail-masked
unless allow-listed (then a clickable `mailto:` link with the proposal
number in the subject); for `discussions-to` such an entry is **always**
the clickable `mailto:` link; entries starting `http:` become plain
links; all other entries pass through verbatim; entries are rejoined
with `, `. -/
theorem author_field_rendering_amended (kLower sep v : List Char) :
    renderAuthorField kLower sep v = renderAuthorFieldAmendedC1 kLower sep v := by
  unfold renderAuthorField renderAuthorFieldAmendedC1
  rw [funext (renderMailPart_eq_amended kLower sep)]

/-! ## Claim C2 -/

theorem sepRefsGo_error {ts : List (List Char)} (acc : List Char)
    (h : ∃ t ∈ ts, pythonInt t = none) :
    sepRefsGo ts acc = .error .valueError := by
  induction ts generalizing acc with
  | nil => obtain ⟨t, ht, _⟩ := h; exact absurd ht (by simp)
  | cons t ts ih =>
    obtain ⟨u, hu, hnone⟩ := h
    unfold sepRefsGo
    cases hp : pythonInt t with
    | none => rfl
    | some n =>
      rcases List.mem_cons.mp hu with rfl | humem
      · exact absurd hp (by simp [hnone])
      · exact ih _ ⟨u, humem, hnone⟩

/-- Claim C2: `replaces` / `superseded-by` / `requires` values are split
on comma/whitespace and each integer token `n` becomes a link to
`sep-%04d.html`; `Replaces: 1, 2` yields links to `sep-0001.html` and
`sep-0002.html`; any non-integer token raises a value error that
propagates uncaught (shown both on the field transform and on a whole
`fixfile` run over `replacesAbcDoc`). -/
theorem sep_refs_links_and_value_error :
    fixSepRefs "1, 2".data
      = .ok ("<a href=\"sep-0001.html\">1</a> <a href=\"sep-0002.html\">2</a> ").data ∧
    (∀ v : List Char, (∃ t ∈ splitCommaWs v, pythonInt t = none) →
      fixSepRefs v = .error .valueError) ∧
    (fixfileRun "sep-0001.txt".data replacesAbcDoc "mt".data 0).err
      = some .valueError := by
  refine ⟨by decide, fun v h => sepRefsGo_error [] h, by decide⟩

/-- Witness for the error half of claim C2 at the spec's own example. -/
theorem sep_refs_value_error_witness :
    fixSepRefs "abc".data = .error .valueError :=
  sep_refs_links_and_value_error.2.1 "abc".data ⟨"abc".data, by decide, by decide⟩

/-! ## Claim C3 -/

/-- Claim C3: the body-line substitution is a single-pass,
non-overlapping, leftmost-match replacement (the token texts partition
the line), and the alternatives are tried in the listed order, so a URL
match at a position beats any other alternative there — in particular a
cross-reference-looking substring inside the URL's span never becomes a
token of its own. -/
theorem fixpat_alternation_order_single_pass :
    (∀ s : List Char, ((fixpatTokens s).map tokText).flatten = s) ∧
    (∀ s t r : List Char, urlMatch s = some (t, r) →
      fixpatTokens s = .url t :: fixpatTokens r) :=
  ⟨fixpatTokens_join, fun _ _ _ h => fixpatTokens_url_priority h⟩

/-- Witness: a URL whose tail looks like a `sep-NNNN.txt` cross-reference
is consumed whole by the URL alternative. -/
theorem fixpat_url_overlap_witness :
    fixpatTokens "https://x.org/sep-0001.txt".data
      = [.url "https://x.org/sep-0001.txt".data] := by
  have h := fixpat_alternation_order_single_pass.2 "https://x.org/sep-0001.txt".data
    "https://x.org/sep-0001.txt".data [] (by decide)
  simpa using h

/-! ## Claim C4 -/

theorem stripTrailPunct_ne_nil {t : List Char} (c : Char) (hc : c ∈ t)
    (hnp : PUNCT.contains c = false) : stripTrailPunct t ≠ [] := by
  intro hcon
  unfold stripTrailPunct at hcon
  rw [List.reverse_eq_nil_iff] at hcon
  have hall := List.dropWhile_eq_nil_iff.mp hcon
  have hcc := hall c (List.mem_reverse.mpr hc)
  rw [hnp] at hcc
  exact Bool.false_ne_true hcc

/-- Claim C4: for every URL token, the link target is the matched text
with the trailing-punctuation set stripped from its end (never empty, so
the link is always emitted), the anchor body being the escaped full
match; and, at the spec's example line, the surrounding text is escaped
but otherwise unchanged. -/
theorem url_link_strips_trailing_punctuation :
    (∀ current s t r : List Char, urlMatch s = some (t, r) →
      stripTrailPunct t ≠ [] ∧
      fixanchor current (.url t)
        = "<a href=\"".data ++ escape (stripTrailPunct t) ++ "\">".data
            ++ escape t ++ "</a>".data) ∧
    fixpatSub "x".data "See http://example.com/page.\n".data
      = "See <a href=\"http://example.com/page\">http://example.com/page.</a>\n".data := by
  constructor
  · intro current s t r h
    have hne : stripTrailPunct t ≠ [] := by
      unfold urlMatch at h
      split at h
      · exact absurd h (by simp)
      · rename_i sch rest hs
        obtain ⟨_, _, hcases⟩ := schemeSplit_spec hs
        split_ifs at h with hc
        simp only [Option.some.injEq, Prod.mk.injEq] at h
        obtain ⟨rfl, rfl⟩ := h
        rcases hcases with rfl | rfl | rfl
        · exact stripTrailPunct_ne_nil 'h'
            (List.mem_append_left _ (by decide)) (by decide)
        · exact stripTrailPunct_ne_nil 'h'
            (List.mem_append_left _ (by decide)) (by decide)
        · exact stripTrailPunct_ne_nil 'f'
            (List.mem_append_left _ (by decide)) (by decide)
    refine ⟨hne, ?_⟩
    simp only [fixanchor, anchorHtml]
    rw [if_neg (by simp [List.isEmpty_iff, hne])]
  · decide

/-- Witness: the spec's example URL token. -/
theorem url_trailing_punct_witness :
    stripTrailPunct "http://example.com/page.".data ≠ [] ∧
    fixanchor "x".data (.url "http://example.com/page.".data)
      = "<a href=\"".data ++ escape (stripTrailPunct "http://example.com/page.".data)
          ++ "\">".data ++ escape "http://example.com/page.".data ++ "</a>".data :=
  url_link_strips_trailing_punctuation.1 "x".data "http://example.com/page.".data
    "http://example.com/page.".data [] (by decide)

/-! ## Claim C5 -/

theorem digit_not_ws {c : Char} (h : c.isDigit = true) : pyWs c = false := by
  cases hp : pyWs c with
  | false => rfl
  | true =>
    exfalso
    unfold pyWs at hp
    simp only [Bool.or_eq_true, decide_eq_true_eq] at hp
    rcases hp with ((((h1 | h1) | h1) | h1) | h1) | h1 <;> subst h1 <;>
      exact absurd h (by decide)

theorem pyStrip_eq_self {t : List Char} (h : ∀ c ∈ t, pyWs c = false) :
    pyStrip t = t := by
  unfold pyStrip
  have h1 : t.dropWhile pyWs = t := by
    cases t with
    | nil => rfl
    | cons c cs =>
      rw [List.dropWhile_cons, if_neg]
      simp [h c (List.mem_cons_self c cs)]
  rw [h1]
  have h2 : t.reverse.dropWhile pyWs = t.reverse := by
    cases ht : t.reverse with
    | nil => rfl
    | cons c cs =>
      rw [List.dropWhile_cons, if_neg]
      have hcmem : c ∈ t := List.mem_reverse.mp (ht ▸ List.mem_cons_self c cs)
      simp [h c hcmem]
  rw [h2, List.reverse_reverse]

theorem noDoubleUnderscore_of_digits {t : List Char}
    (h : ∀ c ∈ t, c.isDigit = true) : noDoubleUnderscore t = true := by
  induction t with
  | nil => rfl
  | cons c cs ih =>
    cases cs with
    | nil => rfl
    | cons d ds =>
      have hc : c ≠ '_' := fun he => by
        subst he
        exact absurd (h '_' (List.mem_cons_self _ _)) (by decide)
      have ihh := ih (fun x hx => h x (List.mem_cons_of_mem c hx))
      show (!(decide (c = '_') && decide (d = '_')) && noDoubleUnderscore (d :: ds)) = true
      rw [ihh]
      simp [hc]

theorem pythonInt_digits {t : List Char} (hne : t ≠ [])
    (hd : ∀ c ∈ t, c.isDigit = true) :
    pythonInt t = some ((natOfDigits t : Nat) : Int) := by
  obtain ⟨c, cs, rfl⟩ : ∃ c cs, t = c :: cs := by
    cases t with
    | nil => exact absurd rfl hne
    | cons c cs => exact ⟨c, cs, rfl⟩
  have hc := hd c (List.mem_cons_self c cs)
  have hstrip : pyStrip (c :: cs) = c :: cs :=
    pyStrip_eq_self (fun x hx => digit_not_ws (hd x hx))
  have hcm : c ≠ '-' := fun he => by subst he; exact absurd hc (by decide)
  have hcp : c ≠ '+' := fun he => by subst he; exact absurd hc (by decide)
  have hgl : (c :: cs).getLast? = some ((c :: cs).getLast (by simp)) :=
    List.getLast?_eq_getLast _ _
  have hok : pyIntOk (c :: cs) = true := by
    unfold pyIntOk
    rw [hgl]
    simp only [List.isEmpty_cons, List.head?_cons, Option.all_some,
      Bool.not_false, List.all_eq_true, Bool.and_eq_true, Bool.or_eq_true]
    refine ⟨⟨⟨⟨by simp, hc⟩, hd _ (List.getLast_mem (by simp))⟩,
      fun x hx => Or.inl (hd x hx)⟩, noDoubleUnderscore_of_digits hd⟩
  have hfil : (c :: cs).filter Char.isDigit = c :: cs :=
    List.filter_eq_self.mpr (fun a ha => hd a ha)
  unfold pythonInt
  rw [hstrip]
  unfold pyIntCore
  rw [List.head?_cons, if_neg (by simp [hcm]), if_neg (by simp [hcp]),
    if_pos hok, hfil]

/-- Claim C5: for the index document `sep-0000.txt` only, a body line
whose second whitespace-separated token is a 1–4 digit number is an
index summary line: the first occurrence of that token in the line is
replaced by a hyperlink to `sep-%04d.html` of its value.  For any other
basename the line goes through the ordinary combined substitution
instead. -/
theorem sep0_index_summary_hyperlink :
    (∀ sep inpath line t : List Char,
      (pySplit line).getD 1 [] = t →
      1 < (pySplit line).length →
      t ≠ [] → (∀ c ∈ t, c.isDigit = true) → t.length ≤ 4 →
      bodyContentLine "sep-0000.txt".data sep inpath line
        = .ok (pyReSub1Lit t
            ("<a href=\"sep-".data ++ padInt 4 ((natOfDigits t : Nat) : Int)
              ++ ".html\">".data ++ t ++ "</a>".data) line)) ∧
    (∀ basename sep inpath line : List Char, basename ≠ "sep-0000.txt".data →
      bodyContentLine basename sep inpath line = .ok (fixpatSub inpath line)) := by
  constructor
  · intro sep inpath line t ht hlen hne hdig _
    subst ht
    obtain ⟨c, cs, hcc⟩ :
        ∃ c cs, (pySplit line).getD 1 [] = c :: cs := by
      cases hft : (pySplit line).getD 1 [] with
      | nil => exact absurd hft hne
      | cons c cs => exact ⟨c, cs, rfl⟩
    unfold bodyContentLine
    rw [if_pos rfl]
    split
    · rw [pythonInt_digits hne hdig]
    · rename_i hcond
      apply absurd _ hcond
      rw [hcc]
      simp only [List.head?_cons, Option.any_some, Bool.and_eq_true,
        decide_eq_true_eq]
      exact ⟨hlen, hdig c (hcc.symm ▸ List.mem_cons_self c cs)⟩
  · intro basename sep inpath line hb
    unfold bodyContentLine
    rw [if_neg hb]

/-- Witness: a concrete index summary line of `sep-0000.txt`. -/
theorem sep0_index_summary_witness :
    bodyContentLine "sep-0000.txt".data "1".data "x".data " S 12 x\n".data
      = .ok (pyReSub1Lit "12".data
          ("<a href=\"sep-".data ++ padInt 4 ((natOfDigits "12".data : Nat) : Int)
            ++ ".html\">".data ++ "12".data ++ "</a>".data) " S 12 x\n".data) :=
  sep0_index_summary_hyperlink.1 "1".data "x".data " S 12 x\n".data "12".data
    (by decide) (by decide) (by decide) (by decide) (by decide)

/-! ## Claim C6 -/

/-- Naive substring test (used to state what a rendered page contains). -/
def containsSub (pat : List Char) : List Char → Bool
  | [] => List.isPrefixOf pat []
  | c :: cs => List.isPrefixOf pat (c :: cs) || containsSub pat cs

/-- A plaintext document whose `Sep` header is not an integer. -/
def sepAbcDoc : List (List Char) :=
  ["Sep: abc\n".data, "Title: T\n".data, "\n".data, " Body\n".data]

/-- Claim C6: a non-integer document-number header makes the renderer
catch the conversion failure: the warning goes to the error stream, the
`SEP Source` link is omitted, and the document is still rendered to the
end (no uncaught exception). -/
theorem invalid_sep_number_warning :
    (∀ sep : List Char, sep ≠ [] → pythonInt sep = none →
      sourceBlock sep = ([], [valueErrorMsg sep])) ∧
    ((fixfileRun "sep-0001.txt".data sepAbcDoc "mt".data 0).err = none ∧
     (fixfileRun "sep-0001.txt".data sepAbcDoc "mt".data 0).warnings
       = [valueErrorMsg "abc".data] ∧
     containsSub "SEP Source".data
       (fixfileRun "sep-0001.txt".data sepAbcDoc "mt".data 0).out = false ∧
     containsSub "</html>".data
       (fixfileRun "sep-0001.txt".data sepAbcDoc "mt".data 0).out = true) := by
  constructor
  · intro sep hne hnone
    unfold sourceBlock
    rw [if_neg hne, hnone]
  · exact ⟨by decide, by decide, by decide, by decide⟩

/-- Witness for claim C6 at the concrete header value `abc`. -/
theorem invalid_sep_number_warning_witness :
    sourceBlock "abc".data = ([], [valueErrorMsg "abc".data]) :=
  invalid_sep_number_warning.1 "abc".data (by decide) (by decide)

/-! ## Claim C7 -/

theorem parseHeaderGo_keys {lines : List (List Char)}
    {hdr0 hdr : List (List Char × List Char)} {s0 t0 sep title : List Char}
    {rest : List (List Char)}
    (h : parseHeaderGo lines hdr0 s0 t0 = .ok (hdr, sep, title, rest)) :
    hdr0.map (fun kv => pyLower kv.1) <+: hdr.map (fun kv => pyLower kv.1) := by
  induction lines generalizing hdr0 s0 t0 with
  | nil =>
    unfold parseHeaderGo at h
    simp only [Except.ok.injEq, Prod.mk.injEq] at h
    obtain ⟨rfl, rfl, rfl, rfl⟩ := h
    exact List.prefix_refl _
  | cons line rest' ih =>
    unfold parseHeaderGo at h
    by_cases h1 : pyStrip line = []
    · rw [if_pos h1] at h
      simp only [Except.ok.injEq, Prod.mk.injEq] at h
      obtain ⟨rfl, rfl, rfl, rfl⟩ := h
      exact List.prefix_refl _
    · rw [if_neg h1] at h
      by_cases h2 : line.head?.any (fun c => !pyWs c) = true
      · rw [if_pos h2] at h
        by_cases h3 : ':' ∈ line
        · rw [if_pos h3] at h
          refine List.IsPrefix.trans ?_ (ih h)
          rw [List.map_append]
          exact List.prefix_append _ _
        · rw [if_neg h3] at h
          simp only [Except.ok.injEq, Prod.mk.injEq] at h
          obtain ⟨rfl, rfl, rfl, rfl⟩ := h
          exact List.prefix_refl _
      · rw [if_neg h2] at h
        split at h
        · exact absurd h (by simp)
        · rename_i kv hlast
          have hne : hdr0 ≠ [] := by
            intro he
            subst he
            exact absurd hlast (by simp)
          have hkv : kv = hdr0.getLast hne := by
            have hgl := List.getLast?_eq_getLast hdr0 hne
            rw [hlast] at hgl
            exact (Option.some.inj hgl)
          have hsame : (hdr0.dropLast ++ [(kv.1, kv.2 ++ line)]).map
                (fun kv => pyLower kv.1)
              = hdr0.map (fun kv => pyLower kv.1) := by
            conv_rhs => rw [← List.dropLast_append_getLast hne]
            rw [List.map_append, List.map_append, hkv]
            simp
          have hpre := ih h
          rw [hsame] at hpre
          exact hpre

theorem parseHeaderGo_title_of_no_title {lines : List (List Char)}
    {hdr0 hdr : List (List Char × List Char)} {s0 t0 sep title : List Char}
    {rest : List (List Char)}
    (h : parseHeaderGo lines hdr0 s0 t0 = .ok (hdr, sep, title, rest))
    (hnone : ∀ kv ∈ hdr, pyLower kv.1 ≠ "title".data)
    (h0 : ∀ kv ∈ hdr0, pyLower kv.1 ≠ "title".data) :
    title = t0 := by
  induction lines generalizing hdr0 s0 t0 with
  | nil =>
    unfold parseHeaderGo at h
    simp only [Except.ok.injEq, Prod.mk.injEq] at h
    exact h.2.2.1.symm
  | cons line rest' ih =>
    unfold parseHeaderGo at h
    by_cases h1 : pyStrip line = []
    · rw [if_pos h1] at h
      simp only [Except.ok.injEq, Prod.mk.injEq] at h
      exact h.2.2.1.symm
    · rw [if_neg h1] at h
      by_cases h2 : line.head?.any (fun c => !pyWs c) = true
      · rw [if_pos h2] at h
        by_cases h3 : ':' ∈ line
        · rw [if_pos h3] at h
          have hkt : pyLower (line.takeWhile (fun c => c ≠ ':'))
              ≠ "title".data := by
            intro hkey
            have hmem : "title".data ∈ hdr.map (fun kv => pyLower kv.1) := by
              apply (parseHeaderGo_keys h).sublist.subset
              rw [List.map_append]
              refine List.mem_append_right _ (List.mem_singleton.mpr ?_)
              exact hkey.symm
            obtain ⟨kv, hkvmem, hkveq⟩ := List.mem_map.mp hmem
            exact hnone kv hkvmem hkveq
          rw [if_neg hkt] at h
          refine ih h ?_
          intro kv hkv
          rcases List.mem_append.mp hkv with hl | hr
          · exact h0 kv hl
          · have hkveq : kv = (line.takeWhile (fun c => c ≠ ':'),
                pyStrip ((line.dropWhile (fun c => c ≠ ':')).drop 1)) := by
              simpa using hr
            rw [hkveq]
            exact hkt
        · rw [if_neg h3] at h
          simp only [Except.ok.injEq, Prod.mk.injEq] at h
          exact h.2.2.1.symm
      · rw [if_neg h2] at h
        split at h
        · exact absurd h (by simp)
        · rename_i kv hlast
          have hne : hdr0 ≠ [] := by
            intro he
            subst he
            exact absurd hlast (by simp)
          have hkvg : kv = hdr0.getLast hne := by
            have hgl := List.getLast?_eq_getLast hdr0 hne
            rw [hlast] at hgl
            exact (Option.some.inj hgl)
          have hkvmem : kv ∈ hdr0 := hkvg ▸ List.getLast_mem hne
          have hkt : pyLower kv.1 ≠ "title".data := h0 kv hkvmem
          rw [if_neg hkt] at h
          refine ih h ?_
          intro x hx
          rcases List.mem_append.mp hx with hl | hr
          · exact h0 x ((List.dropLast_sublist hdr0).subset hl)
          · have hxeq : x = (kv.1, kv.2 ++ line) := by simpa using hr
            rw [hxeq]
            exact hkt

/-- Missing `Title` field makes the parsed title empty. -/
theorem parseHeader_no_title {lines : List (List Char)}
    {hdr : List (List Char × List Char)} {sep title : List Char}
    {rest : List (List Char)}
    (h : parseHeader lines = .ok (hdr, sep, title, rest))
    (hnone : ∀ kv ∈ hdr, pyLower kv.1 ≠ "title".data) : title = [] :=
  parseHeaderGo_title_of_no_title h hnone (by simp)

/-- A document with a `Sep` header and no `Title` header. -/
def sep42NoTitleDoc : List (List Char) := ["Sep: 42\n".data, "\n".data]

/-- Claim C7, as stated, is false: a document with `Sep: 42` and no
`Title` field renders the **nonempty** title `SEP 42 -- `, not an empty
title. -/
theorem missing_title_counterexample :
    parseHeader sep42NoTitleDoc
      = .ok ([("Sep".data, "42".data)], "42".data, [], []) ∧
    titleBlock "42".data [] = "  <title>SEP 42 -- </title>\n".data ∧
    titleBlock "42".data [] ≠ [] ∧
    containsSub "<title>SEP 42 -- </title>".data
      (fixfileRun "sep-0042.txt".data sep42NoTitleDoc "mt".data 0).out = true :=
  ⟨by decide, by decide, by decide, by decide⟩

/-- Amended claim C7: with no `Title` field the parsed title is empty;
the generated document's title element is then omitted entirely when the
document-number header is also absent, and reads `SEP <n> -- ` (with an
empty trailing part) when a document number is present. -/
theorem missing_title_amended {lines : List (List Char)}
    {hdr : List (List Char × List Char)} {sep title : List Char}
    {rest : List (List Char)}
    (h : parseHeader lines = .ok (hdr, sep, title, rest))
    (hnone : ∀ kv ∈ hdr, pyLower kv.1 ≠ "title".data) :
    title = [] ∧
    titleBlock sep title
      = (if sep = [] then []
         else "  <title>".data ++ escape ("SEP ".data ++ sep ++ " -- ".data)
           ++ "</title>\n".data) := by
  have ht : title = [] := parseHeader_no_title h hnone
  subst ht
  refine ⟨rfl, ?_⟩
  by_cases hs : sep = []
  · subst hs
    rfl
  · rw [if_neg hs]
    unfold titleBlock
    simp only [List.append_nil]
    rw [if_pos hs]
    have hcond : ("SEP ".data ++ sep ++ " -- ".data) ≠ [] := by
      intro hcon
      rcases List.append_eq_nil.mp hcon with ⟨_, hc2⟩
      exact absurd hc2 (by decide)
    rw [if_pos hcond]

/-- Witness for the amended claim C7 on a concrete document. -/
theorem missing_title_amended_witness :
    titleBlock "42".data []
      = (if ("42".data : List Char) = [] then []
         else "  <title>".data ++ escape ("SEP ".data ++ "42".data ++ " -- ".data)
           ++ "</title>\n".data) :=
  (@missing_title_amended sep42NoTitleDoc [("Sep".data, "42".data)] "42".data []
    [] (by decide) (by decide)).2

/-! ## Claim C9 -/

/-- Claim C9: a `fixfile` run is a pure function of the input path,
lines, and modification time; the randomly chosen banner index `r`
influences the output only through the three zero-padded digits of the
banner image name (so two runs on unchanged input are byte-identical
once the banner index is excluded or seeded).  When the run dies while
parsing the header, the partial output does not mention `r` at all. -/
theorem converter_deterministic_mod_banner :
    ∀ (inpath : List Char) (lines : List (List Char)) (mtimeStr : List Char),
      (∃ pre post w e, ∀ r : Nat,
        fixfileRun inpath lines mtimeStr r
          = ⟨pre ++ padInt 3 (r : Int) ++ post, w, e⟩) ∨
      (∃ o, ∀ r : Nat, fixfileRun inpath lines mtimeStr r = o) := by
  intro inpath lines mtimeStr
  cases h : parseHeader lines with
  | error e =>
    right
    refine ⟨⟨headOut, [], some e⟩, fun r => ?_⟩
    unfold fixfileRun
    rw [h]
  | ok q =>
    obtain ⟨hdr, sep, title, rest⟩ := q
    left
    refine ⟨headOut ++ titleBlock sep title ++ bannerPre,
      bannerPost ++ (fixfileTail inpath (basenameOf inpath) sep mtimeStr hdr rest).1,
      (fixfileTail inpath (basenameOf inpath) sep mtimeStr hdr rest).2.1,
      (fixfileTail inpath (basenameOf inpath) sep mtimeStr hdr rest).2.2,
      fun r => ?_⟩
    unfold fixfileRun
    rw [h]
    simp [List.append_assoc]

/-! ## Claim C10 -/

/-- A document whose filename suffix is not an integer. -/
def sepBadNameDoc : List Char × List (List Char) :=
  ("sep-abc.txt".data,
   ["Title: Odd\n".data, "Author: C\n".data, "Created: 01-Jan-2020\n".data])

/-- The 02-Jan-2020 document of the spec's feed example. -/
def createdJan2Doc : List Char × List (List Char) :=
  ("sep-0002.txt".data,
   ["Title: Second\n".data, "Author: B\n".data, "Created: 02-Jan-2020\n".data])

/-- Claim C10, as stated, is false for the first processed document: with
`n` still unbound, the swallowed conversion error is followed by a
`NameError` — the run aborts and **no** feed item is built at all. -/
theorem first_doc_bad_suffix_counterexample :
    pythonInt (fileNumTok "sep-abc.txt".data) = none ∧
    sep2rss [sepBadNameDoc] = .error .nameError :=
  ⟨by decide, by decide⟩

/-- Amended claim C10: a failing filename-suffix conversion is silently
swallowed; for a non-first document the feed item is built with the
number left over from the previously processed document, so its title
and permalink refer to the wrong document; for the first document the
unbound number raises a name error and no feed is produced. -/
theorem stale_number_reused_amended :
    ((sep2rss [createdJan2Doc, sepBadNameDoc]).map
        (fun its => its.map (fun i => (i.title, i.link)))
      = .ok [("SEP 2: Second".data, rssUrl 2), ("SEP 2: Odd".data, rssUrl 2)]) ∧
    (∀ (d : Date × List Char × List (List Char)) ds (n : Int) items,
      pythonInt (fileNumTok d.2.1) = none →
      itemsGo ds (some n) = .ok items →
      itemsGo (d :: ds) (some n)
        = .ok ({ title := "SEP ".data ++ intRepr n ++ ": ".data
                   ++ optStr (firstlineStartingwith d.2.2 "Title:".data)
                 link := rssUrl n
                 description := "Author: ".data
                   ++ optStr (firstlineStartingwith d.2.2 "Author:".data)
                 guid := rssUrl n
                 pubDate := d.1 } :: items)) ∧
    (∀ (d : Date × List Char × List (List Char)) ds,
      pythonInt (fileNumTok d.2.1) = none →
      itemsGo (d :: ds) none = .error .nameError) := by
  refine ⟨by decide, ?_, ?_⟩
  · intro d ds n items h h2
    unfold itemsGo
    simp only [h, h2]
  · intro d ds h
    unfold itemsGo
    rw [h]

/-- Witness for the first-document branch of the amended claim C10. -/
theorem stale_number_reused_witness :
    itemsGo [((2020, 1, 1), "sep-abc.txt".data, ([] : List (List Char)))] none
      = .error .nameError :=
  stale_number_reused_amended.2.2 ((2020, 1, 1), "sep-abc.txt".data, []) []
    (by decide)

/-! ## Claim C8 -/

/-- The 01-Jan-2020 document of the spec's feed example. -/
def createdJan1Doc : List Char × List (List Char) :=
  ("sep-0001.txt".data,
   ["Title: First\n".data, "Author: A\n".data, "Created: 01-Jan-2020\n".data])

theorem strLt_irrefl (a : List Char) : strLt a a = false := by
  induction a with
  | nil => rfl
  | cons c cs ih => simp [strLt, ih]

theorem strLt_trans {a b c : List Char} (h1 : strLt a b = true)
    (h2 : strLt b c = true) : strLt a c = true := by
  induction a generalizing b c with
  | nil =>
    cases b with
    | nil => exact absurd h1 (by simp [strLt])
    | cons d ds =>
      cases c with
      | nil => exact absurd h2 (by simp [strLt])
      | cons e es => rfl
  | cons x xs ih =>
    cases b with
    | nil => exact absurd h1 (by simp [strLt])
    | cons y ys =>
      cases c with
      | nil => exact absurd h2 (by simp [strLt])
      | cons z zs =>
        simp only [strLt, Bool.or_eq_true, Bool.and_eq_true,
          decide_eq_true_eq] at h1 h2 ⊢
        rcases h1 with h1 | ⟨he1, h1⟩ <;> rcases h2 with h2 | ⟨he2, h2⟩
        · exact Or.inl (lt_trans h1 h2)
        · subst he2; exact Or.inl h1
        · subst he1; exact Or.inl h2
        · subst he1; subst he2; exact Or.inr ⟨rfl, ih h1 h2⟩

theorem strLt_trichotomy (a b : List Char) :
    strLt a b = true ∨ a = b ∨ strLt b a = true := by
  induction a generalizing b with
  | nil =>
    cases b with
    | nil => exact Or.inr (Or.inl rfl)
    | cons d ds => exact Or.inl rfl
  | cons x xs ih =>
    cases b with
    | nil => exact Or.inr (Or.inr rfl)
    | cons y ys =>
      rcases lt_trichotomy x y with h | h | h
      · left; simp [strLt, h]
      · subst h
        rcases ih ys with h' | h' | h'
        · left; simp [strLt, h']
        · right; left; rw [h']
        · right; right; simp [strLt, h']
      · right; right; simp [strLt, h]

theorem strLt_neg_trans {a b c : List Char} (h1 : strLt a b = false)
    (h2 : strLt b c = false) : strLt a c = false := by
  cases hac : strLt a c with
  | false => rfl
  | true =>
    exfalso
    rcases strLt_trichotomy a b with h | rfl | h
    · rw [h] at h1; exact absurd h1 (by simp)
    · rw [hac] at h2; exact absurd h2 (by simp)
    · have := strLt_trans h hac
      rw [this] at h2
      exact absurd h2 (by simp)

theorem dateLt_iff {a b : Date} : dateLt a b = true ↔
    (a.1 < b.1 ∨ (a.1 = b.1 ∧
      (a.2.1 < b.2.1 ∨ (a.2.1 = b.2.1 ∧ a.2.2 < b.2.2)))) := by
  simp [dateLt]

theorem dateLt_irrefl (a : Date) : dateLt a a = false := by
  rw [← Bool.not_eq_true, dateLt_iff]
  omega

theorem dateLt_neg_trans {a b c : Date} (h1 : dateLt a b = false)
    (h2 : dateLt b c = false) : dateLt a c = false := by
  rw [← Bool.not_eq_true, dateLt_iff] at h1 h2 ⊢
  omega

theorem dateLt_connex {a b : Date} (h1 : dateLt a b = false)
    (h2 : dateLt b a = false) : a = b := by
  rw [← Bool.not_eq_true, dateLt_iff] at h1 h2
  rw [Prod.ext_iff, Prod.ext_iff]
  constructor
  · omega
  · constructor <;> omega

theorem dateLt_asymm {a b : Date} (h : dateLt a b = true) :
    dateLt b a = false := by
  rw [dateLt_iff] at h
  rw [← Bool.not_eq_true, dateLt_iff]
  omega

theorem entryLt_iff {a b : Date × List Char × List (List Char)} :
    entryLt a b = true ↔
      (dateLt a.1 b.1 = true ∨ (a.1 = b.1 ∧ strLt a.2.1 b.2.1 = true)) := by
  simp [entryLt]

theorem entryLt_asymm {x y : Date × List Char × List (List Char)}
    (h : entryLt x y = true) : entryLt y x = false := by
  rw [entryLt_iff] at h
  rw [← Bool.not_eq_true, entryLt_iff]
  rintro (hd | ⟨he, hs⟩)
  · rcases h with hd' | ⟨he', _⟩
    · rw [dateLt_asymm hd'] at hd
      exact absurd hd (by simp)
    · rw [← he'] at hd
      rw [dateLt_irrefl] at hd
      exact absurd hd (by simp)
  · rcases h with hd' | ⟨he', hs'⟩
    · rw [he] at hd'
      rw [dateLt_irrefl] at hd'
      exact absurd hd' (by simp)
    · have := strLt_trans hs' hs
      rw [strLt_irrefl] at this
      exact absurd this (by simp)

theorem entryLt_neg_trans {x y z : Date × List Char × List (List Char)}
    (h1 : entryLt x y = false) (h2 : entryLt y z = false) :
    entryLt x z = false := by
  rw [← Bool.not_eq_true, entryLt_iff] at h1 h2 ⊢
  have hd1 : dateLt x.1 y.1 = false := by
    cases hq : dateLt x.1 y.1
    · rfl
    · exact absurd (Or.inl hq) h1
  have hd2 : dateLt y.1 z.1 = false := by
    cases hq : dateLt y.1 z.1
    · rfl
    · exact absurd (Or.inl hq) h2
  rintro (hd | ⟨he, hs⟩)
  · have := dateLt_neg_trans hd1 hd2
    rw [this] at hd
    exact absurd hd (by simp)
  · rw [← he] at hd2
    have hxy : x.1 = y.1 := dateLt_connex hd1 hd2
    have hs1 : strLt x.2.1 y.2.1 = false := by
      cases hq : strLt x.2.1 y.2.1
      · rfl
      · exact absurd (Or.inr ⟨hxy, hq⟩) h1
    have hs2 : strLt y.2.1 z.2.1 = false := by
      cases hq : strLt y.2.1 z.2.1
      · rfl
      · exact absurd (Or.inr ⟨hxy ▸ he, hq⟩) h2
    have := strLt_neg_trans hs1 hs2
    rw [this] at hs
    exact absurd hs (by simp)

theorem insertDesc_mem {x z : Date × List Char × List (List Char)}
    {l : List (Date × List Char × List (List Char))}
    (h : z ∈ insertDesc x l) : z = x ∨ z ∈ l := by
  induction l with
  | nil => simpa [insertDesc] using h
  | cons y ys ih =>
    unfold insertDesc at h
    by_cases hc : entryLt x y = true
    · rw [if_pos hc] at h
      rcases List.mem_cons.mp h with rfl | h'
      · exact Or.inr (List.mem_cons_self _ _)
      · rcases ih h' with h'' | h''
        · exact Or.inl h''
        · exact Or.inr (List.mem_cons_of_mem _ h'')
    · rw [if_neg hc] at h
      rcases List.mem_cons.mp h with rfl | h'
      · exact Or.inl rfl
      · exact Or.inr h'

theorem insertDesc_pairwise {x : Date × List Char × List (List Char)}
    {l : List (Date × List Char × List (List Char))}
    (hl : l.Pairwise (fun a b => entryLt a b = false)) :
    (insertDesc x l).Pairwise (fun a b => entryLt a b = false) := by
  induction l with
  | nil => simp [insertDesc]
  | cons y ys ih =>
    rcases List.pairwise_cons.mp hl with ⟨hy, hys⟩
    unfold insertDesc
    by_cases hc : entryLt x y = true
    · rw [if_pos hc]
      rw [List.pairwise_cons]
      refine ⟨?_, ih hys⟩
      intro z hz
      rcases insertDesc_mem hz with rfl | hzys
      · exact entryLt_asymm hc
      · exact hy z hzys
    · rw [if_neg hc]
      have hcF : entryLt x y = false := by
        cases hq : entryLt x y
        · rfl
        · exact absurd hq hc
      rw [List.pairwise_cons]
      refine ⟨?_, hl⟩
      intro z hz
      rcases List.mem_cons.mp hz with rfl | hzys
      · exact hcF
      · exact entryLt_neg_trans hcF (hy z hzys)

/-- The sort really is descending: every earlier entry compares
not-less-than every later entry in `(date, path)` order. -/
theorem sortDescEntries_pairwise (l : List (Date × List Char × List (List Char))) :
    (sortDescEntries l).Pairwise (fun a b => entryLt a b = false) := by
  induction l with
  | nil => simp [sortDescEntries]
  | cons x xs ih => exact insertDesc_pairwise ih

theorem insertDesc_length (x : Date × List Char × List (List Char))
    (l : List (Date × List Char × List (List Char))) :
    (insertDesc x l).length = l.length + 1 := by
  induction l with
  | nil => rfl
  | cons y ys ih =>
    unfold insertDesc
    by_cases hc : entryLt x y = true
    · rw [if_pos hc]
      simp [ih]
    · rw [if_neg hc]
      simp

theorem sortDescEntries_length (l : List (Date × List Char × List (List Char))) :
    (sortDescEntries l).length = l.length := by
  induction l with
  | nil => rfl
  | cons x xs ih =>
    unfold sortDescEntries
    rw [insertDesc_length, ih, List.length_cons]

theorem sepsWithDt_length {docs : List (List Char × List (List Char))}
    {ps : List (Date × List Char × List (List Char))}
    (h : sepsWithDt docs = .ok ps) : ps.length = docs.length := by
  induction docs generalizing ps with
  | nil =>
    unfold sepsWithDt at h
    simp only [Except.ok.injEq] at h
    subst h
    rfl
  | cons d ds ih =>
    unfold sepsWithDt at h
    cases hdt : sepCreationDt d.2 with
    | error e => rw [hdt] at h; exact absurd h (by simp)
    | ok dt =>
      rw [hdt] at h
      cases hrest : sepsWithDt ds with
      | error e => rw [hrest] at h; exact absurd h (by simp)
      | ok r =>
        rw [hrest] at h
        simp only [Except.ok.injEq] at h
        subst h
        simp [ih hrest]

theorem itemsGo_length {l : List (Date × List Char × List (List Char))} :
    ∀ {n : Option Int} {items : List RssItem},
      itemsGo l n = .ok items → items.length = l.length := by
  induction l with
  | nil =>
    intro n items h
    unfold itemsGo at h
    simp only [Except.ok.injEq] at h
    subst h
    rfl
  | cons d ds ih =>
    intro n items h
    unfold itemsGo at h
    cases hm : (match pythonInt (fileNumTok d.2.1) with
                | some k => some k
                | none => n) with
    | none => rw [hm] at h; exact absurd h (by simp)
    | some k =>
      simp only [hm] at h
      cases hrec : itemsGo ds (some k) with
      | error e =>
        simp only [hrec] at h
        exact absurd h (by simp)
      | ok its =>
        simp only [hrec, Except.ok.injEq] at h
        subst h
        simp [ih hrec]

/-- Claim C8: documents are dated from their `Created` header (the epoch
when the `Created` line has no date substring), sorted by date
descending, and feed items are emitted for exactly the first 10; in the
spec's two-document example the `02-Jan-2020` document's item comes
first. -/
theorem feed_sorted_newest_first_top10 :
    ((sep2rss [createdJan1Doc, createdJan2Doc]).map
        (fun its => its.map (fun i => i.link))
      = .ok [rssUrl 2, rssUrl 1]) ∧
    (∀ (lines : List (List Char)) (c : List Char),
      firstlineStartingwith lines "Created:".data = some c →
      reSearchDate c = none → sepCreationDt lines = .ok epochDate) ∧
    (∀ docs items, sep2rss docs = .ok items →
      items.length = min 10 docs.length) ∧
    (∀ ps, (sortDescEntries ps).Pairwise (fun a b => entryLt a b = false)) := by
  refine ⟨by decide, ?_, ?_, sortDescEntries_pairwise⟩
  · intro lines c h1 h2
    unfold sepCreationDt
    simp only [h1, h2]
  · intro docs items h
    unfold sep2rss at h
    cases hsw : sepsWithDt docs with
    | error e => rw [hsw] at h; exact absurd h (by simp)
    | ok ps =>
      rw [hsw] at h
      rw [itemsGo_length h, List.length_take, sortDescEntries_length,
        sepsWithDt_length hsw]

/-- Witness for the epoch-fallback half of claim C8. -/
theorem feed_epoch_fallback_witness :
    sepCreationDt ["Created:\n".data] = .ok epochDate :=
  feed_sorted_newest_first_top10.2.1 ["Created:\n".data] [] (by decide) (by decide)

end Peps
